import Mathlib

/-!
Verification of the BridgeNote QR-transfer pipeline.

A JavaScript string is embedded as a `List Char` (one entry per Unicode
scalar value).  The repository code under `src/` is translated function by
function; external platform and library primitives (the lz-string
compression library, `JSON.stringify`/`JSON.parse`,
`encodeURIComponent`/`decodeURIComponent`) are modelled from their
documented contracts, as noted on each definition.
-/

set_option maxHeartbeats 1000000
set_option maxRecDepth 10000

namespace BridgeNote

/-- The `SyncData` payload interface of `src/components/QRCodeModal.tsx`
(lines 6–9) and of the rich-text app (`src/unnamed/part_003`, lines 21–24):
a text component `t` and an optional list `i` of self-contained image
strings. -/
structure SyncData where
  t : List Char
  i : Option (List (List Char))
deriving DecidableEq

/-! ## Model of the lz-string library

The repository calls `LZString.compressToEncodedURIComponent` and
`LZString.decompressFromEncodedURIComponent` from the external `lz-string`
package (not part of this repository).  Modelled from the spec: a
deterministic, general-purpose compression pass followed by a URL-safe
character encoding over the URI-safe alphabet of the library, with
decompression its exact partial inverse (returning `none` on input it
cannot decode).  The model encodes each scalar value as four characters of
the 64-character URI-safe alphabet. -/

/-- The first 64 characters of the lz-string URI-safe key string
(`keyStrUriSafe`). -/
def uriSafeKey : List Char :=
  ("ABCDEFGHIJKLMNOPQRSTUVWXYZabcdefghijklmnopqrstuvwxyz0123456789+-").data

/-- Digit value `d < 64` to URI-safe alphabet character. -/
def b64char (d : Nat) : Char := uriSafeKey.getD d 'A'

/-- Index of a character in a list, leftmost first. -/
def idxIn (c : Char) : List Char → Option Nat
  | [] => none
  | x :: rest => if x = c then some 0 else (idxIn c rest).map (· + 1)

/-- URI-safe alphabet character back to its digit value. -/
def b64val (c : Char) : Option Nat := idxIn c uriSafeKey

/-- One scalar value (`n < 64^4`) as four URI-safe characters, most
significant digit first. -/
def encode4 (n : Nat) : List Char :=
  [b64char (n / 262144), b64char (n / 4096 % 64), b64char (n / 64 % 64),
   b64char (n % 64)]

/-- Model of `LZString.compressToEncodedURIComponent`. -/
def compressToEncodedURIComponent : List Char → List Char
  | [] => []
  | c :: rest => encode4 c.toNat ++ compressToEncodedURIComponent rest

/-- Model of `LZString.decompressFromEncodedURIComponent`: reads groups of
four URI-safe characters; `none` on any input not of that shape. -/
def decompressFromEncodedURIComponent : List Char → Option (List Char)
  | [] => some []
  | c1 :: c2 :: c3 :: c4 :: rest =>
    match b64val c1, b64val c2, b64val c3, b64val c4 with
    | some v1, some v2, some v3, some v4 =>
      let n := ((v1 * 64 + v2) * 64 + v3) * 64 + v4
      if _h : Nat.isValidChar n then
        match decompressFromEncodedURIComponent rest with
        | some cs => some (Char.ofNat n :: cs)
        | none => none
      else none
    | _, _, _, _ => none
  | _ => none

/-! ## Model of JSON serialization

The repository calls the platform primitives `JSON.stringify` and
`JSON.parse` (external to the repository) on the `SyncData` payload
`\x7b t, i? \x7d` and on the legacy image-list array.  `stringifySync` is the
canonical ECMAScript serialization of that object (fields in insertion
order `t` then `i`, standard string escaping); the parsers below model
`JSON.parse` restricted to this payload grammar, with any parse failure or
shape mismatch (which the callers turn into a caught exception) returned
as `none`. -/

/-- Lower-case hexadecimal digit for `n < 16`. -/
def hexDigitL (n : Nat) : Char :=
  if n < 10 then Char.ofNat (48 + n) else Char.ofNat (87 + n)

/-- Upper-case hexadecimal digit for `n < 16`. -/
def hexDigitU (n : Nat) : Char :=
  if n < 10 then Char.ofNat (48 + n) else Char.ofNat (55 + n)

/-- Hexadecimal digit value, accepting both letter cases. -/
def hexVal (c : Char) : Option Nat :=
  match idxIn c (("0123456789abcdef").data) with
  | some v => some v
  | none =>
    match idxIn c (("ABCDEF").data) with
    | some v => some (10 + v)
    | none => none

/-- JSON escaping of one character, as `JSON.stringify` performs it:
quote, backslash and the named control escapes as two-character escapes,
any other control character as a `\u00xx` escape, everything else
verbatim. -/
def escChar (c : Char) : List Char :=
  if c = '"' then ['\\', '"']
  else if c = '\\' then ['\\', '\\']
  else if c = '\x08' then ['\\', 'b']
  else if c = '\x0c' then ['\\', 'f']
  else if c = '\n' then ['\\', 'n']
  else if c = '\r' then ['\\', 'r']
  else if c = '\t' then ['\\', 't']
  else if c.toNat < 32 then
    ['\\', 'u', '0', '0', hexDigitL (c.toNat / 16), hexDigitL (c.toNat % 16)]
  else [c]

/-- JSON escaping of a whole string body. -/
def escString : List Char → List Char
  | [] => []
  | c :: rest => escChar c ++ escString rest

/-- A JSON string literal: quote, escaped body, quote. -/
def quoteString (s : List Char) : List Char :=
  '"' :: escString s ++ ['"']

/-- The `Array.prototype.join`-style interleaving of a separator. -/
def joinWith (sep : List Char) : List (List Char) → List Char
  | [] => []
  | [x] => x
  | x :: y :: t => x ++ sep ++ joinWith sep (y :: t)

/-- Model of `JSON.stringify` on the optional image-list field: omitted
when the field is absent. -/
def iPart : Option (List (List Char)) → List Char
  | none => []
  | some imgs =>
    [',', '"', 'i', '"', ':', '['] ++ joinWith [','] (imgs.map quoteString) ++ [']']

/-- Model of `JSON.stringify` on a `SyncData` value (the payload literally
built as `\x7b t: ..., i: ... \x7d` by the callers). -/
def stringifySync (d : SyncData) : List Char :=
  ['{', '"', 't', '"', ':'] ++ quoteString d.t ++ iPart d.i ++ ['}']

/-- Single-character JSON unescapes. -/
def unescape1 (e : Char) : Option Char :=
  if e = '"' then some '"'
  else if e = '\\' then some '\\'
  else if e = '/' then some '/'
  else if e = 'b' then some '\x08'
  else if e = 'f' then some '\x0c'
  else if e = 'n' then some '\n'
  else if e = 'r' then some '\r'
  else if e = 't' then some '\t'
  else none

/-- Parse the body of a JSON string literal (the opening quote already
consumed); returns the unescaped body and the input after the closing
quote. -/
def parseStr : List Char → Option (List Char × List Char)
  | [] => none
  | c :: rest =>
    if c = '"' then some ([], rest)
    else if c = '\\' then
      match rest with
      | [] => none
      | e :: rest1 =>
        if e = 'u' then
          match rest1 with
          | a :: b :: c2 :: d :: rest2 =>
            (match hexVal a, hexVal b, hexVal c2, hexVal d with
             | some ha, some hb, some hc, some hd =>
               let n := ((ha * 16 + hb) * 16 + hc) * 16 + hd
               if _h : Nat.isValidChar n then
                 match parseStr rest2 with
                 | some (s, r) => some (Char.ofNat n :: s, r)
                 | none => none
               else none
             | _, _, _, _ => none)
          | _ => none
        else
          match unescape1 e with
          | some u =>
            match parseStr rest1 with
            | some (s, r) => some (u :: s, r)
            | none => none
          | none => none
    else
      match parseStr rest with
      | some (s, r) => some (c :: s, r)
      | none => none

/-- Parse the items of a JSON array of strings (the opening bracket
already consumed), fuelled by an upper bound on the number of items. -/
def parseArr : Nat → List Char → Option (List (List Char) × List Char)
  | _, ']' :: rest => some ([], rest)
  | fuel + 1, '"' :: rest =>
    (match parseStr rest with
     | some (s, r) =>
       (match r with
        | ']' :: r2 => some ([s], r2)
        | ',' :: r2 =>
          (match parseArr fuel r2 with
           | some (ss, r3) => some (s :: ss, r3)
           | none => none)
        | _ => none)
     | none => none)
  | _, _ => none

/-- Model of `JSON.parse` restricted to the `SyncData` payload grammar
`\x7b"t":<string>(,"i":[<string>,...])?\x7d`. -/
def parseSync (cs : List Char) : Option SyncData :=
  match cs with
  | '{' :: '"' :: 't' :: '"' :: ':' :: '"' :: rest =>
    (match parseStr rest with
     | some (t, r) =>
       (match r with
        | ['}'] => some ⟨t, none⟩
        | ',' :: '"' :: 'i' :: '"' :: ':' :: '[' :: r2 =>
          (match parseArr r2.length r2 with
           | some (imgs, r3) => if r3 = ['}'] then some ⟨t, some imgs⟩ else none
           | none => none)
        | _ => none)
     | none => none)
  | _ => none

/-- Model of `JSON.parse` restricted to a JSON array of strings, as used
on the legacy `bridgeNoteImages` slot. -/
def parseJsonArr (cs : List Char) : Option (List (List Char)) :=
  match cs with
  | '[' :: rest =>
    (match parseArr rest.length rest with
     | some (imgs, r) => if r = [] then some imgs else none
     | none => none)
  | _ => none

/-! ## Sync Encoder (`src/components/QRCodeModal.tsx`, lines 20–45) -/

/-- The triple computed by the `useMemo` of `QRCodeModal`
(`src/components/QRCodeModal.tsx`, line 20). -/
structure EncodeResult where
  syncUrl : List Char
  isTooLong : Bool
  hasImagesError : Bool
deriving DecidableEq

/-- The sync-URL computation of `src/components/QRCodeModal.tsx`
(lines 20–45): compress the full payload, accept it under the 2200
ceiling, otherwise retry with a text-only payload when images are
present, otherwise report too-long with an empty URL. -/
def encodeQR (baseUrl : List Char) (data : SyncData) : EncodeResult :=
  let compressedFull := compressToEncodedURIComponent (stringifySync data)
  let fullUrl := baseUrl ++ ("#data=").data ++ compressedFull
  if fullUrl.length < 2200 then ⟨fullUrl, false, false⟩
  else
    match data.i with
    | some imgs =>
      if imgs.length > 0 then
        let textData : SyncData := ⟨data.t, none⟩
        let compressedText := compressToEncodedURIComponent (stringifySync textData)
        let textUrl := baseUrl ++ ("#data=").data ++ compressedText
        if textUrl.length < 2200 then ⟨textUrl, false, true⟩
        else ⟨[], true, false⟩
      else ⟨[], true, false⟩
    | none => ⟨[], true, false⟩

/-- The triple computed by the `useMemo` of the earlier `QRCodeModal`
revision (`src/unnamed/part_001`, line 20). -/
structure EncodeResultV1 where
  syncUrl : List Char
  isTooLong : Bool
  errorMsg : List Char
deriving DecidableEq

/-- The sync-URL computation of `src/unnamed/part_001` (lines 20–41):
one compression attempt against a 2300 ceiling, no degradation tier. -/
def encodeQRv1 (baseUrl : List Char) (data : SyncData) : EncodeResultV1 :=
  let compressed := compressToEncodedURIComponent (stringifySync data)
  let url := baseUrl ++ ("#data=").data ++ compressed
  if url.length < 2300 then ⟨url, false, []⟩
  else
    ⟨[], true,
      ("Content is still too large even after compression. Please delete some images or text.").data⟩

/-- The fragment of a URL: everything from the first `#` on (this is what
`window.location.hash` holds after the URL is opened). -/
def urlHash (url : List Char) : List Char := url.dropWhile (fun c => c != '#')

/-! ## Sync Decoder and loader (`src/unnamed/part_003`, lines 60–125) -/

/-- The `#data=` decode portion of `initContent`
(`src/unnamed/part_003`, lines 66–72): scheme-tag check, lz-string
decompression, the JavaScript truthiness test on the decompressed string,
and `JSON.parse`.  Any failure inside the `try` block of the source is `none`. -/
def decodeDataFragment (hash : List Char) : Option SyncData :=
  if hash.take 6 = ("#data=").data then
    match decompressFromEncodedURIComponent (hash.drop 6) with
    | some d => if d = [] then none else parseSync d
    | none => none
  else none

/-- The image tag emitted by `initContent` for a decoded or migrated
image (`src/unnamed/part_003`, lines 77 and 105). -/
def imgTag (img : List Char) : List Char :=
  ("<img src=\"").data ++ img ++
    ("\" class=\"max-w-full rounded-lg border border-gray-200\" /><br/>").data

/-- The newline-to-br replace substitution applied to `data.t`. -/
def replaceNlBr : List Char → List Char
  | [] => []
  | c :: rest => (if c = '\n' then ("<br/>").data else [c]) ++ replaceNlBr rest

/-- Concatenation of a list of strings (the `forEach`/`+=` accumulation
loops of `initContent`). -/
def concatAll : List (List Char) → List Char
  | [] => []
  | x :: rest => x ++ concatAll rest

/-- The HTML assembled from a decoded `SyncData`
(`src/unnamed/part_003`, lines 73–80). -/
def buildDataHtml (d : SyncData) : List Char :=
  ("<div>").data ++ replaceNlBr d.t ++ ("</div>").data ++
    (match d.i with
     | some imgs =>
       if imgs.length > 0 then
         ("<div class=\"mt-4 grid gap-2\">").data ++
           concatAll (imgs.map imgTag) ++ ("</div>").data
       else []
     | none => [])

/-- The four named `localStorage` slots the app reads and writes:
`bridgeNoteHtml`, `bridgeNoteContent`, `bridgeNoteImages`,
`hasSeenInfo_offline`.  `none` models an absent key. -/
structure Store where
  html : Option (List Char)
  content : Option (List Char)
  images : Option (List Char)
  seen : Option (List Char)
deriving DecidableEq

/-- JavaScript truthiness of a `localStorage.getItem` result: `null` and
the empty string are falsy. -/
def truthy : Option (List Char) → Bool
  | none => false
  | some s => !s.isEmpty

/-- Observable outcome of the initialization effect: the editor HTML
installed, the status message set, the resulting store, and whether the
URL fragment was stripped. -/
structure InitResult where
  editor : List Char
  status : List Char
  store : Store
  hashCleared : Bool
deriving DecidableEq

/-- The `initContent` routine of `src/unnamed/part_003` (lines 61–125):
try the `#data=` fragment; on failure fall back to the unified
`bridgeNoteHtml` slot; failing that, migrate the legacy
`bridgeNoteContent`/`bridgeNoteImages` pair into unified HTML and delete
the legacy slots. -/
def initContent (st : Store) (hash : List Char) : InitResult :=
  match decodeDataFragment hash with
  | some d => ⟨buildDataHtml d, ("Synced via QR!").data, st, true⟩
  | none =>
    if truthy st.html then ⟨st.html.getD [], [], st, false⟩
    else if truthy st.content || truthy st.images then
      let base := ("<div>").data ++ replaceNlBr (st.content.getD []) ++ ("</div>").data
      let withImgs :=
        if truthy st.images then
          match parseJsonArr (st.images.getD []) with
          | some imgs => base ++ concatAll (imgs.map imgTag)
          | none => base
        else base
      ⟨withImgs, [], { st with content := none, images := none }, false⟩
    else ⟨[], [], st, false⟩

/-- The whole mount effect of `src/unnamed/part_003` (lines 61–125):
`initContent` followed by the first-run `hasSeenInfo_offline` update. -/
def loadApp (st : Store) (hash : List Char) : InitResult :=
  let r := initContent st hash
  if truthy r.store.seen then r
  else { r with store := { r.store with seen := some (("true").data) } }

/-! ## Extraction (`src/unnamed/part_003`, lines 178–211) -/

/-- How the `src` of one `img` element is resolved for export: a `data:` URL
passes through, anything else goes through the `toBase64` fetch (the
external network/canvas step, abstracted as an oracle). -/
def resolveImg (fetch : List Char → Option (List Char)) (src : List Char) :
    Option (List Char) :=
  if src.take 5 = ("data:").data then some src else fetch src

/-- The image-collection loop of `extractData`
(`src/unnamed/part_003`, lines 188–208): `data:` sources are pushed,
external sources are converted, a failed conversion (CORS) skips just
that image, an `img` with no `src` is skipped by `continue`. -/
def collectImages (fetch : List Char → Option (List Char)) :
    List (Option (List Char)) → List (List Char)
  | [] => []
  | none :: rest => collectImages fetch rest
  | some src :: rest =>
    if src.take 5 = ("data:").data then src :: collectImages fetch rest
    else
      match fetch src with
      | some b => b :: collectImages fetch rest
      | none => collectImages fetch rest

/-- `extractData` (`src/unnamed/part_003`, lines 178–211): the editor
the `innerText` of the clone becomes `t`, the processed image list becomes `i`.
The editor content itself is an input only; the function builds a fresh
`SyncData`. -/
def extractData (text : List Char) (imgs : List (Option (List Char)))
    (fetch : List Char → Option (List Char)) : SyncData :=
  ⟨text, some (collectImages fetch imgs)⟩

/-! ## Case-conversion transform (`src/unnamed/part_003`, lines 227–245) -/

/-- A DOM selection range over the document text: offset and length.
`window.getSelection()` may also be `null`, modelled by `Option Sel`. -/
structure Sel where
  start : Nat
  len : Nat
deriving DecidableEq

/-- `Selection.isCollapsed`: anchor and focus coincide. -/
def isCollapsed (s : Sel) : Bool := s.len = 0

/-- `selection.toString()`: the selected slice of the document text. -/
def selToString (doc : List Char) (s : Sel) : List Char :=
  (doc.drop s.start).take s.len

/-- The insertText document command: replaces the selected
range with the given text. -/
def insertText (doc : List Char) (s : Sel) (t : List Char) : List Char :=
  doc.take s.start ++ t ++ doc.drop (s.start + s.len)

/-- `String.prototype.toUpperCase`, per scalar value. -/
def jsToUpperCase (s : List Char) : List Char := s.map Char.toUpper

/-- `String.prototype.toLowerCase`, per scalar value. -/
def jsToLowerCase (s : List Char) : List Char := s.map Char.toLower

/-- The `UPPERCASE`/`LOWERCASE` arms of `handleFormat`
(`src/unnamed/part_003`, lines 227–245): with an active (non-collapsed)
selection the selected text is case-converted in place; otherwise the
content is left alone and the status message `Select text first` is set
(returned as `some message`; `none` means no message was set). -/
def handleCaseFormat (upper : Bool) (doc : List Char) (sel : Option Sel) :
    List Char × Option (List Char) :=
  match sel with
  | some s =>
    if !isCollapsed s then
      (insertText doc s
        ((if upper then jsToUpperCase else jsToLowerCase) (selToString doc s)),
        none)
    else (doc, some (("Select text first").data))
  | none => (doc, some (("Select text first").data))

/-! ## Model of percent-encoding

`encodeURIComponent`/`decodeURIComponent` are platform primitives
(external to the repository).  Modelled from their contract: unreserved
characters pass through, every other character becomes the `%XX` escapes
of its UTF-8 bytes; decoding is the partial inverse, failing (the
caught `URIError` of the source) on malformed input. -/

/-- The characters `encodeURIComponent` leaves unescaped. -/
def isUriUnreserved (c : Char) : Bool :=
  c.isAlpha || c.isDigit ||
    (['-', '_', '.', '!', '~', '*', Char.ofNat 39, '(', ')'].contains c)

/-- UTF-8 bytes of a scalar value. -/
def utf8Bytes (n : Nat) : List Nat :=
  if n < 128 then [n]
  else if n < 2048 then [192 + n / 64, 128 + n % 64]
  else if n < 65536 then [224 + n / 4096, 128 + n / 64 % 64, 128 + n % 64]
  else [240 + n / 262144, 128 + n / 4096 % 64, 128 + n / 64 % 64, 128 + n % 64]

/-- One byte as a `%XX` escape (upper-case hex, as the platform emits). -/
def pctByte (b : Nat) : List Char := ['%', hexDigitU (b / 16), hexDigitU (b % 16)]

/-- Model of `encodeURIComponent`. -/
def encodeURIComponentM : List Char → List Char
  | [] => []
  | c :: rest =>
    (if isUriUnreserved c then [c]
     else concatAll ((utf8Bytes c.toNat).map pctByte)) ++ encodeURIComponentM rest

/-- One step of `decodeURIComponent`: decode a single character from
the head of the input — either an unescaped character or one complete
percent-escaped UTF-8 sequence — returning it with the remaining input;
`none` on malformed input. -/
def pctStep (cs : List Char) : Option (Char × List Char) :=
  match cs with
  | [] => none
  | c :: rest =>
    if c = '%' then
      match rest with
      | a :: b :: rest1 =>
        (match hexVal a, hexVal b with
         | some ha, some hb =>
           let v := ha * 16 + hb
           if v < 128 then some (Char.ofNat v, rest1)
           else if v < 192 then none
           else if v < 224 then
             (match rest1 with
              | '%' :: a2 :: b2 :: rest2 =>
                (match hexVal a2, hexVal b2 with
                 | some ha2, some hb2 =>
                   let v2 := ha2 * 16 + hb2
                   if 128 ≤ v2 && v2 < 192 then
                     let n := (v - 192) * 64 + (v2 - 128)
                     if _h : Nat.isValidChar n then some (Char.ofNat n, rest2)
                     else none
                   else none
                 | _, _ => none)
              | _ => none)
           else if v < 240 then
             (match rest1 with
              | '%' :: a2 :: b2 :: '%' :: a3 :: b3 :: rest3 =>
                (match hexVal a2, hexVal b2, hexVal a3, hexVal b3 with
                 | some ha2, some hb2, some ha3, some hb3 =>
                   let v2 := ha2 * 16 + hb2
                   let v3 := ha3 * 16 + hb3
                   if (128 ≤ v2 && v2 < 192) && (128 ≤ v3 && v3 < 192) then
                     let n := (v - 224) * 4096 + (v2 - 128) * 64 + (v3 - 128)
                     if _h : Nat.isValidChar n then some (Char.ofNat n, rest3)
                     else none
                   else none
                 | _, _, _, _ => none)
              | _ => none)
           else if v < 248 then
             (match rest1 with
              | '%' :: a2 :: b2 :: '%' :: a3 :: b3 :: '%' :: a4 :: b4 :: rest4 =>
                (match hexVal a2, hexVal b2, hexVal a3, hexVal b3,
                    hexVal a4, hexVal b4 with
                 | some ha2, some hb2, some ha3, some hb3, some ha4, some hb4 =>
                   let v2 := ha2 * 16 + hb2
                   let v3 := ha3 * 16 + hb3
                   let v4 := ha4 * 16 + hb4
                   if ((128 ≤ v2 && v2 < 192) && (128 ≤ v3 && v3 < 192)) &&
                       (128 ≤ v4 && v4 < 192) then
                     let n := (v - 240) * 262144 + (v2 - 128) * 4096 +
                       (v3 - 128) * 64 + (v4 - 128)
                     if _h : Nat.isValidChar n then some (Char.ofNat n, rest4)
                     else none
                   else none
                 | _, _, _, _, _, _ => none)
              | _ => none)
           else none
         | _, _ => none)
      | _ => none
    else some (c, rest)

/-- The decode loop: repeatedly take one `pctStep`.  Every step consumes
at least one input character, so the input length is sufficient fuel. -/
def pctLoop : Nat → List Char → Option (List Char)
  | _, [] => some []
  | 0, _ :: _ => none
  | fuel + 1, c :: rest =>
    match pctStep (c :: rest) with
    | some (ch, r) =>
      (match pctLoop fuel r with
       | some s => some (ch :: s)
       | none => none)
    | none => none

/-- Model of `decodeURIComponent`: percent-escaped UTF-8 sequences are
reassembled into characters, unescaped characters pass through, malformed
input yields `none`. -/
def decodeURIComponentM (cs : List Char) : Option (List Char) :=
  pctLoop cs.length cs

/-- The `#note=` decode of the plain-variant load effect
(`src/App.tsx`, lines 27–40): scheme-tag check then
`decodeURIComponent`; a thrown `URIError` is caught, modelled as
`none`. -/
def decodeNoteFragment (hash : List Char) : Option (List Char) :=
  if hash.take 6 = ("#note=").data then decodeURIComponentM (hash.drop 6)
  else none

/-! ## The plain-variant BULLETS transform (`src/App.tsx`, lines 76–88) -/

/-- `String.prototype.split('\n')`. -/
def splitNl : List Char → List (List Char)
  | [] => [[]]
  | c :: rest =>
    match splitNl rest with
    | [] => [[]]
    | h :: t => if c = '\n' then [] :: h :: t else (c :: h) :: t

/-- `Array.prototype.join('\n')`. -/
def joinNl : List (List Char) → List Char
  | [] => []
  | [l] => l
  | l :: rest => l ++ '\n' :: joinNl rest

/-- The ECMAScript white-space and line-terminator set trimmed by
`String.prototype.trim`. -/
def isJsWhitespace (c : Char) : Bool :=
  ([' ', '\t', '\n', '\r', '\x0b', '\x0c', Char.ofNat 160, Char.ofNat 5760,
    Char.ofNat 8192, Char.ofNat 8193, Char.ofNat 8194, Char.ofNat 8195,
    Char.ofNat 8196, Char.ofNat 8197, Char.ofNat 8198, Char.ofNat 8199,
    Char.ofNat 8200, Char.ofNat 8201, Char.ofNat 8202, Char.ofNat 8232,
    Char.ofNat 8233, Char.ofNat 8239, Char.ofNat 8287, Char.ofNat 12288,
    Char.ofNat 65279].contains c)

/-- Leading white space removed. -/
def trimL (s : List Char) : List Char := s.dropWhile isJsWhitespace

/-- Trailing white space removed. -/
def trimR (s : List Char) : List Char := (trimL s.reverse).reverse

/-- `String.prototype.trim`. -/
def jsTrim (s : List Char) : List Char := trimR (trimL s)

/-- The per-line body of the `BULLETS` arm of `handleFormat`
(`src/App.tsx`, lines 78–86): trim; blank lines become the empty string;
lines already starting with a bullet marker stay; others get a `- `
marker. -/
def bulletLine (line : List Char) : List Char :=
  let trimmed := jsTrim line
  if trimmed.isEmpty then []
  else if trimmed.head? = some '-' || trimmed.head? = some '•' then trimmed
  else '-' :: ' ' :: trimmed

/-- The whole `BULLETS` transform (`src/App.tsx`, lines 76–88): split
into lines, bullet each, drop empties (`filter(Boolean)`), re-join. -/
def bullets (content : List Char) : List Char :=
  joinNl (((splitNl content).map bulletLine).filter (fun l => !l.isEmpty))

end BridgeNote

namespace BridgeNote

theorem charToNat_valid (c : Char) : Nat.isValidChar c.toNat := by
  have := c.valid
  simpa [Char.toNat, UInt32.isValidChar] using this

theorem charToNat_lt (c : Char) : c.toNat < 1114112 := by
  rcases charToNat_valid c with h | h
  · omega
  · omega

theorem b64val_b64char : ∀ d, d < 64 → b64val (b64char d) = some d := by decide

/-- Decompression is a left inverse of compression (the documented
contract of the lz-string pair, which the model realises). -/
theorem decompress_compress (s : List Char) :
    decompressFromEncodedURIComponent (compressToEncodedURIComponent s) = some s := by
  induction s with
  | nil => rfl
  | cons c rest ih =>
    have hlt := charToNat_lt c
    have h1 : b64val (b64char (c.toNat / 262144)) = some (c.toNat / 262144) :=
      b64val_b64char _ (by omega)
    have h2 : b64val (b64char (c.toNat / 4096 % 64)) = some (c.toNat / 4096 % 64) :=
      b64val_b64char _ (by omega)
    have h3 : b64val (b64char (c.toNat / 64 % 64)) = some (c.toNat / 64 % 64) :=
      b64val_b64char _ (by omega)
    have h4 : b64val (b64char (c.toNat % 64)) = some (c.toNat % 64) :=
      b64val_b64char _ (by omega)
    have hn : ((c.toNat / 262144 * 64 + c.toNat / 4096 % 64) * 64 +
        c.toNat / 64 % 64) * 64 + c.toNat % 64 = c.toNat := by omega
    simp only [compressToEncodedURIComponent, encode4, List.cons_append,
      List.nil_append, decompressFromEncodedURIComponent, h1, h2, h3, h4, hn,
      ih, dif_pos (charToNat_valid c), Char.ofNat_toNat]
    simp [ih, Char.ofNat_toNat]

theorem hexVal_hexDigitL : ∀ d, d < 16 → hexVal (hexDigitL d) = some d := by decide

theorem hexVal_zero : hexVal '0' = some 0 := by decide

/-- Parsing a JSON string body is a left inverse of escaping. -/
theorem parseStr_escString (s : List Char) :
    ∀ suffix, parseStr (escString s ++ '"' :: suffix) = some (s, suffix) := by
  induction s with
  | nil =>
    intro suffix
    rw [escString, List.nil_append, parseStr.eq_def]
    simp
  | cons c rest ih =>
    intro suffix
    simp only [escString, List.append_assoc]
    simp only [escChar]
    split_ifs with h1 h2 h3 h4 h5 h6 h7 h8
    · subst h1
      simp only [List.cons_append]
      rw [parseStr.eq_def]
      simp [unescape1, ih]
    · subst h2
      simp only [List.cons_append]
      rw [parseStr.eq_def]
      simp [unescape1, ih]
    · subst h3
      simp only [List.cons_append]
      rw [parseStr.eq_def]
      simp [unescape1, ih]
    · subst h4
      simp only [List.cons_append]
      rw [parseStr.eq_def]
      simp [unescape1, ih]
    · subst h5
      simp only [List.cons_append]
      rw [parseStr.eq_def]
      simp [unescape1, ih]
    · subst h6
      simp only [List.cons_append]
      rw [parseStr.eq_def]
      simp [unescape1, ih]
    · subst h7
      simp only [List.cons_append]
      rw [parseStr.eq_def]
      simp [unescape1, ih]
    · have d1 : c.toNat / 16 < 16 := by omega
      have d2 : c.toNat % 16 < 16 := by omega
      simp only [List.cons_append]
      rw [parseStr.eq_def]
      simp [hexVal_zero, hexVal_hexDigitL _ d1, hexVal_hexDigitL _ d2, ih]
      have hn2 : c.toNat / 16 * 16 + c.toNat % 16 = c.toNat := by omega
      rw [hn2]
      exact ⟨charToNat_valid c, Char.ofNat_toNat c⟩
    · simp only [List.cons_append, List.singleton_append]
      rw [parseStr.eq_def]
      simp [h1, h2, ih]

theorem two_le_quoteString_length (s : List Char) : 2 ≤ (quoteString s).length := by
  simp [quoteString]

theorem length_le_joinWith (imgs : List (List Char)) :
    imgs.length ≤ (joinWith [','] (imgs.map quoteString)).length := by
  induction imgs with
  | nil => simp [joinWith]
  | cons x t ih =>
    cases t with
    | nil =>
      have := two_le_quoteString_length x
      simpa [joinWith] using by omega
    | cons y t2 =>
      have := two_le_quoteString_length x
      simp only [List.map, joinWith, List.length_append, List.length_cons] at *
      omega

/-- Parsing a JSON string-array body is a left inverse of serialization,
for any sufficient fuel. -/
theorem parseArr_round :
    ∀ (imgs : List (List Char)) (fuel : Nat) (suffix : List Char),
      imgs.length ≤ fuel →
      parseArr fuel (joinWith [','] (imgs.map quoteString) ++ ']' :: suffix) =
        some (imgs, suffix) := by
  intro imgs
  induction imgs with
  | nil =>
    intro fuel suffix _
    simp only [List.map, joinWith, List.nil_append]
    cases fuel <;> (rw [parseArr.eq_def]; simp)
  | cons x t ih =>
    intro fuel suffix hle
    cases fuel with
    | zero => simp at hle
    | succ f =>
      cases t with
      | nil =>
        have hshape : joinWith [','] (([x] : List (List Char)).map quoteString) ++
            ']' :: suffix = '"' :: (escString x ++ '"' :: (']' :: suffix)) := by
          simp [joinWith, quoteString]
        rw [hshape, parseArr.eq_def]
        simp [parseStr_escString]
      | cons y t2 =>
        have hle2 : (y :: t2).length ≤ f := by
          simpa using Nat.le_of_succ_le_succ hle
        have hshape : joinWith [','] ((x :: y :: t2).map quoteString) ++
            ']' :: suffix = '"' :: (escString x ++ '"' ::
              (',' :: (joinWith [','] ((y :: t2).map quoteString) ++
                ']' :: suffix))) := by
          simp [joinWith, quoteString, List.append_assoc]
        have harr := ih f suffix hle2
        simp only [List.map] at harr
        rw [hshape, parseArr.eq_def]
        simp [parseStr_escString, harr]

/-- Parsing the `SyncData` payload is a left inverse of `JSON.stringify`
on it: the text and the ordered image list come back unchanged. -/
theorem parseSync_stringifySync (d : SyncData) :
    parseSync (stringifySync d) = some d := by
  obtain ⟨t, i⟩ := d
  cases i with
  | none =>
    simp [stringifySync, iPart, quoteString, parseSync, parseStr_escString]
  | some imgs =>
    have harr := parseArr_round imgs
      ((joinWith [','] (imgs.map quoteString)).length + 2) ['}']
      (by have := length_le_joinWith imgs; omega)
    simp [stringifySync, iPart, quoteString, parseSync, parseStr_escString, harr]

/-! ### Facts about `splitNl`, `joinNl` and `jsTrim` -/

theorem splitNl_ne_nil (s : List Char) : splitNl s ≠ [] := by
  induction s with
  | nil => simp [splitNl]
  | cons c rest ih =>
    rw [splitNl]
    cases hs : splitNl rest with
    | nil => simp
    | cons h t => by_cases hc : c = '\n' <;> simp [hc]

theorem mem_splitNl_no_nl (s : List Char) :
    ∀ l ∈ splitNl s, ('\n' : Char) ∉ l := by
  induction s with
  | nil =>
    intro l hl
    simp [splitNl] at hl
    simp [hl]
  | cons c rest ih =>
    intro l hl
    rw [splitNl] at hl
    cases hs : splitNl rest with
    | nil => exact absurd hs (splitNl_ne_nil rest)
    | cons h t =>
      simp only [hs] at hl
      by_cases hc : c = '\n'
      · rw [if_pos hc] at hl
        rcases List.mem_cons.mp hl with rfl | hl2
        · simp
        · exact ih l (hs ▸ hl2)
      · rw [if_neg hc] at hl
        rcases List.mem_cons.mp hl with rfl | hl2
        · have hh : h ∈ splitNl rest := by rw [hs]; exact List.mem_cons_self h t
          have hnlh := ih h hh
          intro hmem
          rcases List.mem_cons.mp hmem with heq | hmem2
          · exact hc heq.symm
          · exact hnlh hmem2
        · exact ih l (by rw [hs]; exact List.mem_cons_of_mem h hl2)

theorem splitNl_no_nl (a : List Char) (ha : ('\n' : Char) ∉ a) :
    splitNl a = [a] := by
  induction a with
  | nil => rfl
  | cons c a2 ih =>
    have hc : c ≠ '\n' := fun h => ha (h ▸ List.mem_cons_self c a2)
    have ha2 : ('\n' : Char) ∉ a2 := fun h => ha (List.mem_cons_of_mem c h)
    rw [splitNl, ih ha2]
    simp [hc]

theorem splitNl_append_cons (a r : List Char) (ha : ('\n' : Char) ∉ a) :
    splitNl (a ++ '\n' :: r) = a :: splitNl r := by
  induction a with
  | nil =>
    rw [List.nil_append, splitNl]
    cases hs : splitNl r with
    | nil => exact absurd hs (splitNl_ne_nil r)
    | cons h t => simp [← hs]
  | cons c a2 ih =>
    have hc : c ≠ '\n' := fun h => ha (h ▸ List.mem_cons_self c a2)
    have ha2 : ('\n' : Char) ∉ a2 := fun h => ha (List.mem_cons_of_mem c h)
    rw [List.cons_append, splitNl, ih ha2]
    simp [hc]

theorem splitNl_joinNl (L : List (List Char)) (hne : L ≠ [])
    (hnl : ∀ l ∈ L, ('\n' : Char) ∉ l) : splitNl (joinNl L) = L := by
  induction L with
  | nil => exact absurd rfl hne
  | cons x t ih =>
    cases t with
    | nil =>
      rw [joinNl]
      exact splitNl_no_nl x (hnl x (List.mem_cons_self x []))
    | cons y t2 =>
      have h1 := splitNl_append_cons x (joinNl (y :: t2))
        (hnl x (List.mem_cons_self x (y :: t2)))
      have h2 := ih (List.cons_ne_nil y t2)
        (fun l hl => hnl l (List.mem_cons_of_mem x hl))
      rw [joinNl, h1, h2]
      intro hx
      cases hx

theorem trimL_head_not_ws (s : List Char) :
    ∀ c, (trimL s).head? = some c → isJsWhitespace c = false := by
  induction s with
  | nil => intro c hc; simp [trimL] at hc
  | cons a s2 ih =>
    intro c hc
    rw [trimL, List.dropWhile_cons] at hc
    by_cases hw : isJsWhitespace a
    · rw [if_pos hw] at hc
      exact ih c hc
    · rw [if_neg hw] at hc
      simp at hc
      have ha : isJsWhitespace a = false := by
        cases hb : isJsWhitespace a
        · rfl
        · exact absurd hb hw
      rw [← hc]
      exact ha

theorem trimL_eq_self (s : List Char)
    (h : ∀ c, s.head? = some c → isJsWhitespace c = false) : trimL s = s := by
  cases s with
  | nil => rfl
  | cons a s2 =>
    rw [trimL, List.dropWhile_cons, if_neg]
    simp [h a rfl]

theorem trimR_append (s : List Char) : ∃ u, trimR s ++ u = s := by
  obtain ⟨u, hu⟩ := List.dropWhile_suffix (l := s.reverse) isJsWhitespace
  refine ⟨u.reverse, ?_⟩
  have := congrArg List.reverse hu
  rw [List.reverse_append, List.reverse_reverse] at this
  exact this

theorem head?_trimR (s : List Char) (h : trimR s ≠ []) :
    (trimR s).head? = s.head? := by
  obtain ⟨u, hu⟩ := trimR_append s
  conv_rhs => rw [← hu]
  cases ht : trimR s with
  | nil => exact absurd ht h
  | cons a t => simp

theorem mem_trimR (s : List Char) : ∀ c ∈ trimR s, c ∈ s := by
  intro c hc
  obtain ⟨u, hu⟩ := trimR_append s
  rw [← hu]
  exact List.mem_append_left u hc

theorem getLast?_trimR_not_ws (s : List Char) :
    ∀ c, (trimR s).getLast? = some c → isJsWhitespace c = false := by
  intro c hc
  rw [trimR, List.getLast?_reverse] at hc
  exact trimL_head_not_ws s.reverse c hc

theorem trimR_eq_self (s : List Char)
    (h : ∀ c, s.getLast? = some c → isJsWhitespace c = false) : trimR s = s := by
  rw [trimR, trimL_eq_self, List.reverse_reverse]
  intro c hc
  rw [List.head?_reverse] at hc
  exact h c hc

theorem head_jsTrim_not_ws (l : List Char) :
    ∀ c, (jsTrim l).head? = some c → isJsWhitespace c = false := by
  intro c hc
  have hne : jsTrim l ≠ [] := by
    intro h
    rw [h] at hc
    simp at hc
  rw [jsTrim] at hc hne
  rw [head?_trimR _ hne] at hc
  exact trimL_head_not_ws l c hc

theorem getLast_jsTrim_not_ws (l : List Char) :
    ∀ c, (jsTrim l).getLast? = some c → isJsWhitespace c = false := by
  intro c hc
  rw [jsTrim] at hc
  exact getLast?_trimR_not_ws _ c hc

theorem jsTrim_eq_self (s : List Char)
    (hh : ∀ c, s.head? = some c → isJsWhitespace c = false)
    (hl : ∀ c, s.getLast? = some c → isJsWhitespace c = false) :
    jsTrim s = s := by
  rw [jsTrim, trimL_eq_self s hh, trimR_eq_self s hl]

theorem jsTrim_idem (l : List Char) : jsTrim (jsTrim l) = jsTrim l :=
  jsTrim_eq_self (jsTrim l) (head_jsTrim_not_ws l) (getLast_jsTrim_not_ws l)

theorem mem_jsTrim (l : List Char) : ∀ c ∈ jsTrim l, c ∈ l := by
  intro c hc
  rw [jsTrim] at hc
  have h1 : c ∈ trimL l := mem_trimR _ c hc
  exact (List.dropWhile_suffix isJsWhitespace).subset h1

/-! ### Facts about `bulletLine` -/

theorem bulletLine_no_nl (l : List Char) (hl : ('\n' : Char) ∉ l) :
    ('\n' : Char) ∉ bulletLine l := by
  have hsub : ('\n' : Char) ∉ jsTrim l := fun h => hl (mem_jsTrim l _ h)
  rw [bulletLine]
  split_ifs with h1 h2
  · simp
  · exact hsub
  · simp [hsub]

theorem bulletLine_idem_on (l : List Char) (h : bulletLine l ≠ []) :
    bulletLine (bulletLine l) = bulletLine l := by
  by_cases h1 : (jsTrim l).isEmpty
  · exact absurd (by rw [bulletLine, if_pos h1]) h
  · have hne : jsTrim l ≠ [] := by
      intro hx
      rw [hx] at h1
      exact h1 rfl
    by_cases h2 : (jsTrim l).head? = some '-' ∨ (jsTrim l).head? = some '•'
    · have he : bulletLine l = jsTrim l := by
        rw [bulletLine, if_neg h1, if_pos (by simpa using h2)]
      rw [he, bulletLine, jsTrim_idem l, if_neg h1, if_pos (by simpa using h2)]
    · have he : bulletLine l = '-' :: ' ' :: jsTrim l := by
        rw [bulletLine, if_neg h1, if_neg (by simpa using h2)]
      have htrim : jsTrim ('-' :: ' ' :: jsTrim l) = '-' :: ' ' :: jsTrim l := by
        apply jsTrim_eq_self
        · intro c hc
          have hc2 : '-' = c := by simpa using hc
          rw [← hc2]
          decide
        · intro c hc
          rw [List.getLast?_cons_cons] at hc
          cases hjt : jsTrim l with
          | nil => exact absurd hjt hne
          | cons a t =>
            rw [hjt, List.getLast?_cons_cons] at hc
            exact getLast_jsTrim_not_ws l c (by rw [hjt]; exact hc)
      rw [he, bulletLine, htrim, if_neg (by simp), if_pos (by simp)]

/-! ### C10: the plain-variant BULLETS transform is idempotent -/

theorem bullets_line_facts (content : List Char) :
    ∀ l ∈ ((splitNl content).map bulletLine).filter (fun l => !l.isEmpty),
      l ≠ [] ∧ bulletLine l = l ∧ ('\n' : Char) ∉ l := by
  intro l hl
  rw [List.mem_filter] at hl
  obtain ⟨hmem, hfil⟩ := hl
  obtain ⟨orig, horig, rfl⟩ := List.mem_map.mp hmem
  have hne : bulletLine orig ≠ [] := by
    intro hx
    rw [hx] at hfil
    simp at hfil
  exact ⟨hne, bulletLine_idem_on orig hne,
    bulletLine_no_nl orig (mem_splitNl_no_nl content orig horig)⟩

/-! ### Decode and URL-hash helpers -/

theorem stringifySync_ne_nil (d : SyncData) : stringifySync d ≠ [] := by
  simp [stringifySync]

theorem compress_length (s : List Char) :
    (compressToEncodedURIComponent s).length = 4 * s.length := by
  induction s with
  | nil => rfl
  | cons c rest ih =>
    simp [compressToEncodedURIComponent, encode4, ih]
    omega

theorem escString_replicate_A (n : Nat) :
    escString (List.replicate n 'A') = List.replicate n 'A' := by
  induction n with
  | zero => rfl
  | succ k ih =>
    rw [List.replicate_succ, escString, ih,
      show escChar 'A' = ['A'] from by decide]
    rfl

theorem decodeData_of_payload (d : SyncData) :
    decodeDataFragment (("#data=").data ++
      compressToEncodedURIComponent (stringifySync d)) = some d := by
  have h6 : (("#data=").data).length = 6 := rfl
  have htake : (("#data=").data ++
      compressToEncodedURIComponent (stringifySync d)).take 6 = ("#data=").data := by
    conv_lhs => rw [← h6]
    exact List.take_left _ _
  have hdrop : (("#data=").data ++
      compressToEncodedURIComponent (stringifySync d)).drop 6 =
      compressToEncodedURIComponent (stringifySync d) := by
    conv_lhs => rw [← h6]
    exact List.drop_left _ _
  simp only [decodeDataFragment, htake, hdrop, decompress_compress,
    parseSync_stringifySync, if_pos]
  simp [stringifySync_ne_nil d, parseSync_stringifySync]

theorem urlHash_append (b z : List Char) (hb : ('#' : Char) ∉ b) :
    urlHash (b ++ '#' :: z) = '#' :: z := by
  induction b with
  | nil => simp [urlHash, List.dropWhile_cons]
  | cons a b2 ih =>
    have ha : a ≠ '#' := fun h => hb (h ▸ List.mem_cons_self a b2)
    have hb2 : ('#' : Char) ∉ b2 := fun h => hb (List.mem_cons_of_mem a h)
    rw [List.cons_append, urlHash, List.dropWhile_cons, if_pos (by simp [ha])]
    exact ih hb2

theorem urlHash_of_dataUrl (b z : List Char) (hb : ('#' : Char) ∉ b) :
    urlHash (b ++ ("#data=").data ++ z) = ("#data=").data ++ z := by
  have hsh : b ++ ("#data=").data ++ z = b ++ '#' :: (("data=").data ++ z) := by
    rw [List.append_assoc]
    rfl
  rw [hsh, urlHash_append b _ hb]
  rfl

/-! ### The claims -/

/-- Claim C1: for every Note whose serialized-and-compressed encoded URL
is under the ceiling, the encoder succeeds non-degraded and decoding the
URL fragment it produced yields the original text and ordered image list
back. -/
theorem c1_encode_decode_roundtrip (baseUrl : List Char) (d : SyncData)
    (hnohash : ('#' : Char) ∉ baseUrl)
    (hfit : (baseUrl ++ ("#data=").data ++
      compressToEncodedURIComponent (stringifySync d)).length < 2200) :
    (encodeQR baseUrl d).isTooLong = false ∧
      decodeDataFragment (urlHash (encodeQR baseUrl d).syncUrl) = some d := by
  have henc : encodeQR baseUrl d =
      ⟨baseUrl ++ ("#data=").data ++ compressToEncodedURIComponent (stringifySync d),
        false, false⟩ := by
    simp only [encodeQR]
    rw [if_pos hfit]
  rw [henc]
  exact ⟨rfl, by rw [urlHash_of_dataUrl _ _ hnohash, decodeData_of_payload]⟩

/-- Witness for C1 at a concrete base URL and Note. -/
theorem c1_witness :
    (('#' : Char) ∉ ("https://ex.com/app").data ∧
      (("https://ex.com/app").data ++ ("#data=").data ++
        compressToEncodedURIComponent
          (stringifySync ⟨("hi").data, some [("data:z").data]⟩)).length < 2200) ∧
    ((encodeQR (("https://ex.com/app").data)
        ⟨("hi").data, some [("data:z").data]⟩).isTooLong = false ∧
      decodeDataFragment (urlHash (encodeQR (("https://ex.com/app").data)
        ⟨("hi").data, some [("data:z").data]⟩).syncUrl) =
        some ⟨("hi").data, some [("data:z").data]⟩) :=
  ⟨⟨by decide, by decide⟩,
    c1_encode_decode_roundtrip _ _ (by decide) (by decide)⟩

theorem c2_over_bound :
    ¬ (List.replicate 2100 'a' ++ ("#data=").data ++
      compressToEncodedURIComponent
        (stringifySync ⟨[], some [("data:AA").data]⟩)).length < 2200 := by
  have hs : (stringifySync ⟨[], some [("data:AA").data]⟩).length = 24 := by decide
  simp only [List.length_append, List.length_replicate, compress_length, hs,
    show (("#data=").data).length = 6 from rfl]
  omega

theorem c2_fit_bound :
    (List.replicate 2100 'a' ++ ("#data=").data ++
      compressToEncodedURIComponent
        (stringifySync ⟨([] : List Char), none⟩)).length < 2200 := by
  have hs : (stringifySync ⟨([] : List Char), none⟩).length = 8 := by decide
  simp only [List.length_append, List.length_replicate, compress_length, hs,
    show (("#data=").data).length = 6 from rfl]
  omega

theorem c2_base_nohash : ('#' : Char) ∉ List.replicate 2100 'a' := by
  intro h
  exact absurd (List.eq_of_mem_replicate h) (by decide)

/-- Claim C2: a Note with images whose full payload is over the ceiling
but whose text-only payload fits yields the degraded success
(`hasImagesError`, the images-skipped banner): the URL carries the text
component unchanged and no images, and the decoded result has the text
intact and the images absent. -/
theorem c2_degraded_text_only (baseUrl : List Char) (d : SyncData)
    (imgs : List (List Char)) (hi : d.i = some imgs) (hne : imgs ≠ [])
    (hnohash : ('#' : Char) ∉ baseUrl)
    (hover : ¬ (baseUrl ++ ("#data=").data ++
      compressToEncodedURIComponent (stringifySync d)).length < 2200)
    (hfit : (baseUrl ++ ("#data=").data ++
      compressToEncodedURIComponent (stringifySync ⟨d.t, none⟩)).length < 2200) :
    encodeQR baseUrl d =
      ⟨baseUrl ++ ("#data=").data ++
        compressToEncodedURIComponent (stringifySync ⟨d.t, none⟩), false, true⟩ ∧
      decodeDataFragment (urlHash (encodeQR baseUrl d).syncUrl) =
        some ⟨d.t, none⟩ := by
  have hpos : imgs.length > 0 := List.length_pos.mpr hne
  have henc : encodeQR baseUrl d =
      ⟨baseUrl ++ ("#data=").data ++
        compressToEncodedURIComponent (stringifySync ⟨d.t, none⟩), false, true⟩ := by
    simp only [encodeQR, hi]
    rw [if_neg hover, if_pos hpos, if_pos hfit]
  rw [henc]
  exact ⟨rfl, by rw [urlHash_of_dataUrl _ _ hnohash, decodeData_of_payload]⟩

/-- Witness for C2: a small image pushes the full payload over the
ceiling (the base URL already being long) while the text-only payload
fits. -/
theorem c2_witness :
    ((⟨[], some [("data:AA").data]⟩ : SyncData).i = some [("data:AA").data] ∧
      [("data:AA").data] ≠ ([] : List (List Char)) ∧
      ('#' : Char) ∉ List.replicate 2100 'a' ∧
      ¬ (List.replicate 2100 'a' ++ ("#data=").data ++
        compressToEncodedURIComponent
          (stringifySync ⟨[], some [("data:AA").data]⟩)).length < 2200 ∧
      (List.replicate 2100 'a' ++ ("#data=").data ++
        compressToEncodedURIComponent
          (stringifySync ⟨([] : List Char), none⟩)).length < 2200) ∧
    (encodeQR (List.replicate 2100 'a') ⟨[], some [("data:AA").data]⟩ =
      ⟨List.replicate 2100 'a' ++ ("#data=").data ++
        compressToEncodedURIComponent (stringifySync ⟨[], none⟩), false, true⟩ ∧
      decodeDataFragment
        (urlHash (encodeQR (List.replicate 2100 'a')
          ⟨[], some [("data:AA").data]⟩).syncUrl) =
        some ⟨[], none⟩) :=
  ⟨⟨rfl, by decide, c2_base_nohash, c2_over_bound, c2_fit_bound⟩,
    c2_degraded_text_only (List.replicate 2100 'a') _ _ rfl (by decide)
      c2_base_nohash c2_over_bound c2_fit_bound⟩

/-- Claim C3: the encoder never exposes an over-ceiling transfer string
as valid: every result is either a non-too-long URL strictly under the
ceiling, or too-long with the empty (unusable) URL; this holds for the
current encoder (ceiling 2200) and the earlier revision (ceiling 2300). -/
theorem c3_never_overceiling (baseUrl : List Char) (d : SyncData) :
    (((encodeQR baseUrl d).isTooLong = false ∧
        (encodeQR baseUrl d).syncUrl.length < 2200) ∨
      ((encodeQR baseUrl d).isTooLong = true ∧
        (encodeQR baseUrl d).syncUrl = [])) ∧
    (((encodeQRv1 baseUrl d).isTooLong = false ∧
        (encodeQRv1 baseUrl d).syncUrl.length < 2300) ∨
      ((encodeQRv1 baseUrl d).isTooLong = true ∧
        (encodeQRv1 baseUrl d).syncUrl = [])) := by
  constructor
  · by_cases h1 : (baseUrl ++ ("#data=").data ++
        compressToEncodedURIComponent (stringifySync d)).length < 2200
    · left
      have henc : encodeQR baseUrl d =
          ⟨baseUrl ++ ("#data=").data ++
            compressToEncodedURIComponent (stringifySync d), false, false⟩ := by
        simp only [encodeQR]
        rw [if_pos h1]
      rw [henc]
      exact ⟨rfl, h1⟩
    · rcases hd : d.i with _ | imgs
      · right
        have henc : encodeQR baseUrl d = ⟨[], true, false⟩ := by
          simp only [encodeQR, hd]
          rw [if_neg h1]
        rw [henc]
        exact ⟨rfl, rfl⟩
      · by_cases h2 : imgs.length > 0
        · by_cases h3 : (baseUrl ++ ("#data=").data ++
              compressToEncodedURIComponent (stringifySync ⟨d.t, none⟩)).length < 2200
          · left
            have henc : encodeQR baseUrl d =
                ⟨baseUrl ++ ("#data=").data ++
                  compressToEncodedURIComponent (stringifySync ⟨d.t, none⟩),
                  false, true⟩ := by
              simp only [encodeQR, hd]
              rw [if_neg h1, if_pos h2, if_pos h3]
            rw [henc]
            exact ⟨rfl, h3⟩
          · right
            have henc : encodeQR baseUrl d = ⟨[], true, false⟩ := by
              simp only [encodeQR, hd]
              rw [if_neg h1, if_pos h2, if_neg h3]
            rw [henc]
            exact ⟨rfl, rfl⟩
        · right
          have henc : encodeQR baseUrl d = ⟨[], true, false⟩ := by
            simp only [encodeQR, hd]
            rw [if_neg h1, if_neg h2]
          rw [henc]
          exact ⟨rfl, rfl⟩
  · by_cases h1 : (baseUrl ++ ("#data=").data ++
        compressToEncodedURIComponent (stringifySync d)).length < 2300
    · left
      have henc : encodeQRv1 baseUrl d =
          ⟨baseUrl ++ ("#data=").data ++
            compressToEncodedURIComponent (stringifySync d), false, []⟩ := by
        simp only [encodeQRv1]
        rw [if_pos h1]
      rw [henc]
      exact ⟨rfl, h1⟩
    · right
      have henc : encodeQRv1 baseUrl d = ⟨[], true,
          ("Content is still too large even after compression. Please delete some images or text.").data⟩ := by
        simp only [encodeQRv1]
        rw [if_neg h1]
      rw [henc]
      exact ⟨rfl, rfl⟩

/-- Counterexample to C4 as frozen: the claim quantifies over every base
application URL, but with a 2200-character base URL even the empty Note
is rejected as too large, because the base URL alone exhausts the
ceiling. -/
theorem c4_counterexample :
    (encodeQR (List.replicate 2200 'a') ⟨[], some []⟩).isTooLong = true ∧
    (encodeQR (List.replicate 2200 'a') ⟨[], some []⟩).syncUrl = [] := by
  have h60 : (compressToEncodedURIComponent (stringifySync ⟨[], some []⟩)).length
      = 60 := by decide
  have h6 : (("#data=").data).length = 6 := rfl
  have hlen : ¬ (List.replicate 2200 'a' ++ ("#data=").data ++
      compressToEncodedURIComponent (stringifySync ⟨[], some []⟩)).length < 2200 := by
    simp only [List.length_append, List.length_replicate, h60, h6]
    omega
  have henc : encodeQR (List.replicate 2200 'a') ⟨[], some []⟩ =
      ⟨[], true, false⟩ := by
    simp only [encodeQR]
    rw [if_neg hlen]
    rfl
  rw [henc]
  exact ⟨rfl, rfl⟩

/-- Claim C4 (amended): encoding the empty Note never returns too-large
as long as the base application URL leaves room for the fixed-size
empty-note suffix under the 2200 ceiling; the result is a valid URL
strictly under the ceiling.  (Both the `i = []` form the app actually
passes and the field-absent form are covered.) -/
theorem c4_empty_note_encodes (baseUrl : List Char)
    (hshort : baseUrl.length ≤ 2133) :
    ((encodeQR baseUrl ⟨[], some []⟩).isTooLong = false ∧
      (encodeQR baseUrl ⟨[], some []⟩).syncUrl.length < 2200) ∧
    ((encodeQR baseUrl ⟨[], none⟩).isTooLong = false ∧
      (encodeQR baseUrl ⟨[], none⟩).syncUrl.length < 2200) := by
  have h60 : (compressToEncodedURIComponent (stringifySync ⟨[], some []⟩)).length
      = 60 := by decide
  have h32 : (compressToEncodedURIComponent (stringifySync ⟨[], none⟩)).length
      = 32 := by decide
  have h6 : (("#data=").data).length = 6 := rfl
  have hfit1 : (baseUrl ++ ("#data=").data ++
      compressToEncodedURIComponent (stringifySync ⟨[], some []⟩)).length < 2200 := by
    simp only [List.length_append, h60, h6]
    omega
  have hfit2 : (baseUrl ++ ("#data=").data ++
      compressToEncodedURIComponent (stringifySync ⟨[], none⟩)).length < 2200 := by
    simp only [List.length_append, h32, h6]
    omega
  constructor
  · have henc : encodeQR baseUrl ⟨[], some []⟩ =
        ⟨baseUrl ++ ("#data=").data ++
          compressToEncodedURIComponent (stringifySync ⟨[], some []⟩),
          false, false⟩ := by
      simp only [encodeQR]
      rw [if_pos hfit1]
    rw [henc]
    exact ⟨rfl, hfit1⟩
  · have henc : encodeQR baseUrl ⟨[], none⟩ =
        ⟨baseUrl ++ ("#data=").data ++
          compressToEncodedURIComponent (stringifySync ⟨[], none⟩),
          false, false⟩ := by
      simp only [encodeQR]
      rw [if_pos hfit2]
    rw [henc]
    exact ⟨rfl, hfit2⟩

/-- Witness for the amended C4 at a realistic base URL. -/
theorem c4_witness :
    (("https://example.com/app").data.length ≤ 2133) ∧
    (((encodeQR (("https://example.com/app").data) ⟨[], some []⟩).isTooLong = false ∧
      (encodeQR (("https://example.com/app").data)
        ⟨[], some []⟩).syncUrl.length < 2200) ∧
    ((encodeQR (("https://example.com/app").data) ⟨[], none⟩).isTooLong = false ∧
      (encodeQR (("https://example.com/app").data)
        ⟨[], none⟩).syncUrl.length < 2200)) :=
  ⟨by decide, c4_empty_note_encodes _ (by decide)⟩

/-- Claim C5: a malformed or corrupt fragment (unrecognized scheme tag,
decompression failure, or invalid payload structure) produces no Note,
and the load effect behaves exactly as a load with no fragment at all:
it falls back to local persistence and the failed decode changes no
persisted slot. -/
theorem c5_malformed_fragment_fallback (st : Store) (hash : List Char)
    (hbad : hash.take 6 ≠ ("#data=").data ∨
      decompressFromEncodedURIComponent (hash.drop 6) = none ∨
      ∀ p, decompressFromEncodedURIComponent (hash.drop 6) = some p →
        p = [] ∨ parseSync p = none) :
    decodeDataFragment hash = none ∧ loadApp st hash = loadApp st [] := by
  have hdec : decodeDataFragment hash = none := by
    by_cases ht : hash.take 6 = ("#data=").data
    · rcases hbad with h | h | h
      · exact absurd ht h
      · simp [decodeDataFragment, ht, h]
      · cases hp : decompressFromEncodedURIComponent (hash.drop 6) with
        | none => simp [decodeDataFragment, ht, hp]
        | some p =>
          by_cases hpe : p = []
          · simp [decodeDataFragment, ht, hp, hpe]
          · rcases h p hp with rfl | hps
            · exact absurd rfl hpe
            · simp [decodeDataFragment, ht, hp, hpe, hps]
    · simp [decodeDataFragment, ht]
  have hdec0 : decodeDataFragment ([] : List Char) = none := by decide
  exact ⟨hdec, by simp [loadApp, initContent, hdec, hdec0]⟩

/-- Witness for C5: a fragment with the other scheme tag, against a store
holding a unified note. -/
theorem c5_witness :
    (("#note=abc").data.take 6 ≠ ("#data=").data) ∧
    (decodeDataFragment (("#note=abc").data) = none ∧
      loadApp ⟨some (("x").data), none, none, none⟩ (("#note=abc").data) =
        loadApp ⟨some (("x").data), none, none, none⟩ []) :=
  ⟨by decide,
    c5_malformed_fragment_fallback _ _ (Or.inl (by decide))⟩

/-- Claim C6: with the unified slot absent and the legacy two-slot state
present, the loader builds a unified note whose HTML is the migrated text
followed by the migrated images in order, and deletes both legacy slots;
the unified slot itself stays unwritten until the next input event. -/
theorem c6_legacy_migration (st : Store) (t imgsStr : List Char)
    (imgs : List (List Char)) (hhtml : st.html = none)
    (hcontent : st.content = some t) (ht : t ≠ [])
    (himg : st.images = some imgsStr)
    (hparse : parseJsonArr imgsStr = some imgs) :
    (loadApp st []).editor =
      ("<div>").data ++ replaceNlBr t ++ ("</div>").data ++
        concatAll (imgs.map imgTag) ∧
    (loadApp st []).store.content = none ∧
    (loadApp st []).store.images = none ∧
    (loadApp st []).store.html = none := by
  have hdec0 : decodeDataFragment ([] : List Char) = none := by decide
  have himgne : imgsStr ≠ [] := by
    intro hx
    rw [hx] at hparse
    simp [parseJsonArr] at hparse
  have htn : truthy none = false := rfl
  have htr : truthy (some t) = true := by simp [truthy, ht]
  have htri : truthy (some imgsStr) = true := by simp [truthy, himgne]
  by_cases hseen : truthy st.seen <;>
    simp [loadApp, initContent, hdec0, hhtml, hcontent, himg, htn, htr, htri,
      hparse, hseen]

/-- Witness for C6 at the concrete legacy state from the spec. -/
theorem c6_witness :
    (loadApp ⟨none, some (("Hello").data),
        some (("[\"data:image/png;base64,AAAA\"]").data), none⟩ []).editor =
      ("<div>").data ++ replaceNlBr (("Hello").data) ++ ("</div>").data ++
        concatAll ([("data:image/png;base64,AAAA").data].map imgTag) ∧
    (loadApp ⟨none, some (("Hello").data),
        some (("[\"data:image/png;base64,AAAA\"]").data), none⟩ []).store.content
      = none ∧
    (loadApp ⟨none, some (("Hello").data),
        some (("[\"data:image/png;base64,AAAA\"]").data), none⟩ []).store.images
      = none ∧
    (loadApp ⟨none, some (("Hello").data),
        some (("[\"data:image/png;base64,AAAA\"]").data), none⟩ []).store.html
      = none :=
  c6_legacy_migration _ _ _ _ rfl rfl (by decide) rfl (by decide)

/-! ### C7 support -/

theorem collectImages_eq_filterMap (fetch : List Char → Option (List Char))
    (l : List (Option (List Char))) :
    collectImages fetch l = l.filterMap (fun o => o.bind (resolveImg fetch)) := by
  induction l with
  | nil => rfl
  | cons o rest ih =>
    cases o with
    | none => simpa [collectImages] using ih
    | some src =>
      rw [collectImages]
      by_cases hd : src.take 5 = ("data:").data
      · simp [hd, List.filterMap_cons, resolveImg, ih]
      · cases hf : fetch src with
        | none => simp [hd, hf, List.filterMap_cons, resolveImg, ih]
        | some b => simp [hd, hf, List.filterMap_cons, resolveImg, ih]

/-- Claim C7: a failed image normalization is confined to that one
image: the text is untouched, the image list is the per-image resolution
of the sources (so only failing external images drop), and removing one
failing external image from the input leaves the extraction of everything
else unchanged — the encode neither aborts nor mutates the note. -/
theorem c7_per_image_failure (text : List Char)
    (imgs pre post : List (Option (List Char)))
    (fetch : List Char → Option (List Char)) (s : List Char)
    (hfail : fetch s = none) (hext : ¬ s.take 5 = ("data:").data) :
    (extractData text imgs fetch).t = text ∧
    (extractData text imgs fetch).i =
      some (imgs.filterMap (fun o => o.bind (resolveImg fetch))) ∧
    extractData text (pre ++ some s :: post) fetch =
      extractData text (pre ++ post) fetch := by
  refine ⟨rfl, by simp [extractData, collectImages_eq_filterMap], ?_⟩
  have hmid : ∀ l, collectImages fetch (some s :: l) = collectImages fetch l := by
    intro l
    rw [collectImages, if_neg hext, hfail]
  have hcoll : ∀ p, collectImages fetch (p ++ some s :: post) =
      collectImages fetch (p ++ post) := by
    intro p
    induction p with
    | nil => simpa using hmid post
    | cons o rest ih =>
      cases o with
      | none => simpa [collectImages] using ih
      | some src =>
        rw [List.cons_append, List.cons_append, collectImages, collectImages]
        by_cases hd : src.take 5 = ("data:").data
        · simp [hd, ih]
        · cases hf : fetch src <;> simp [hd, hf, ih]
  simp [extractData, hcoll pre]

/-- Witness for C7: a CORS-blocked external image between two `data:`
images is dropped while both neighbours and the text survive. -/
theorem c7_witness :
    ((fun _ : List Char => (none : Option (List Char))) (("http://x").data) = none ∧
      ¬ (("http://x").data).take 5 = ("data:").data) ∧
    ((extractData (("hi").data)
        [some (("data:a").data), some (("http://x").data), some (("data:b").data)]
        (fun _ => none)).t = ("hi").data ∧
      (extractData (("hi").data)
        [some (("data:a").data), some (("http://x").data), some (("data:b").data)]
        (fun _ => none)).i =
        some ([some (("data:a").data), some (("http://x").data),
          some (("data:b").data)].filterMap
            (fun o => o.bind (resolveImg (fun _ => none)))) ∧
      extractData (("hi").data)
        ([some (("data:a").data)] ++ some (("http://x").data) ::
          [some (("data:b").data)]) (fun _ => none) =
      extractData (("hi").data)
        ([some (("data:a").data)] ++ [some (("data:b").data)]) (fun _ => none)) :=
  ⟨⟨rfl, by decide⟩,
    c7_per_image_failure _ _ _ _ _ _ rfl (by decide)⟩

/-- Claim C8: with no active (non-collapsed) selection, the upper-case
and lower-case transforms leave the document unchanged and set the
`Select text first` notice. -/
theorem c8_no_selection_notice (upper : Bool) (doc : List Char)
    (sel : Option Sel) (hno : ∀ s, sel = some s → isCollapsed s = true) :
    handleCaseFormat upper doc sel = (doc, some (("Select text first").data)) := by
  cases sel with
  | none => rfl
  | some s =>
    have hc := hno s rfl
    simp [handleCaseFormat, hc]

/-- Witness for C8: a null selection, and separately a collapsed one. -/
theorem c8_witness :
    ((∀ s, (none : Option Sel) = some s → isCollapsed s = true) ∧
      handleCaseFormat true (("abc").data) none =
        (("abc").data, some (("Select text first").data))) ∧
    ((∀ s, (some ⟨1, 0⟩ : Option Sel) = some s → isCollapsed s = true) ∧
      handleCaseFormat false (("abc").data) (some ⟨1, 0⟩) =
        (("abc").data, some (("Select text first").data))) :=
  ⟨⟨fun _ h => Option.noConfusion h,
      c8_no_selection_notice true (("abc").data) none
        (fun _ h => Option.noConfusion h)⟩,
    ⟨fun _s h => (Option.some.inj h) ▸ rfl,
      c8_no_selection_notice false (("abc").data) (some ⟨1, 0⟩)
        (fun _s h => (Option.some.inj h) ▸ rfl)⟩⟩

/-! ### C9 support: percent-encoding round trip -/

theorem hexVal_hexDigitU : ∀ d, d < 16 → hexVal (hexDigitU d) = some d := by decide

theorem pctStep_unreserved (c : Char) (tail : List Char)
    (hu : isUriUnreserved c = true) : pctStep (c :: tail) = some (c, tail) := by
  have hc : ¬ c = '%' := by
    intro h
    rw [h] at hu
    exact absurd hu (by decide)
  simp only [pctStep]
  rw [if_neg hc]

theorem pctStep_escape (c : Char) (tail : List Char) :
    pctStep (concatAll ((utf8Bytes c.toNat).map pctByte) ++ tail) =
      some (c, tail) := by
  have hv := charToNat_lt c
  by_cases h1 : c.toNat < 128
  · have e1 : utf8Bytes c.toNat = [c.toNat] := by rw [utf8Bytes, if_pos h1]
    rw [e1]
    simp only [List.map, pctByte, concatAll, List.append_nil,
      List.cons_append, List.nil_append]
    have hh1 := hexVal_hexDigitU (c.toNat / 16) (by omega)
    have hh2 := hexVal_hexDigitU (c.toNat % 16) (by omega)
    have hrec : c.toNat / 16 * 16 + c.toNat % 16 = c.toNat := by omega
    simp [pctStep, hh1, hh2, hrec, h1, Char.ofNat_toNat]
  · by_cases h2 : c.toNat < 2048
    · have e1 : utf8Bytes c.toNat =
          [192 + c.toNat / 64, 128 + c.toNat % 64] := by
        rw [utf8Bytes, if_neg h1, if_pos h2]
      rw [e1]
      simp only [List.map, pctByte, concatAll, List.append_nil,
        List.cons_append, List.nil_append]
      have hh1 := hexVal_hexDigitU ((192 + c.toNat / 64) / 16) (by omega)
      have hh2 := hexVal_hexDigitU ((192 + c.toNat / 64) % 16) (by omega)
      have hh3 := hexVal_hexDigitU ((128 + c.toNat % 64) / 16) (by omega)
      have hh4 := hexVal_hexDigitU ((128 + c.toNat % 64) % 16) (by omega)
      have hrec1 : (192 + c.toNat / 64) / 16 * 16 + (192 + c.toNat / 64) % 16
          = 192 + c.toNat / 64 := by omega
      have hrec2 : (128 + c.toNat % 64) / 16 * 16 + (128 + c.toNat % 64) % 16
          = 128 + c.toNat % 64 := by omega
      have hc1 : ¬ 192 + c.toNat / 64 < 128 := by omega
      have hc2 : ¬ 192 + c.toNat / 64 < 192 := by omega
      have hc3 : 192 + c.toNat / 64 < 224 := by omega
      have hd1 : 128 ≤ 128 + c.toNat % 64 := by omega
      have hd2 : 128 + c.toNat % 64 < 192 := by omega
      have hrecn : (192 + c.toNat / 64 - 192) * 64 + (128 + c.toNat % 64 - 128)
          = c.toNat := by omega
      simp [pctStep, hh1, hh2, hh3, hh4, hrec1, hrec2, hc1, hc2, hc3, hd1, hd2,
        hrecn, charToNat_valid c, Char.ofNat_toNat]
      have hfin : c.toNat / 64 * 64 + c.toNat % 64 = c.toNat := by omega
      rw [hfin]
      exact ⟨charToNat_valid c, Char.ofNat_toNat c⟩
    · by_cases h3 : c.toNat < 65536
      · have e1 : utf8Bytes c.toNat =
            [224 + c.toNat / 4096, 128 + c.toNat / 64 % 64,
              128 + c.toNat % 64] := by
          rw [utf8Bytes, if_neg h1, if_neg h2, if_pos h3]
        rw [e1]
        simp only [List.map, pctByte, concatAll, List.append_nil,
          List.cons_append, List.nil_append]
        have hh1 := hexVal_hexDigitU ((224 + c.toNat / 4096) / 16) (by omega)
        have hh2 := hexVal_hexDigitU ((224 + c.toNat / 4096) % 16) (by omega)
        have hh3 := hexVal_hexDigitU ((128 + c.toNat / 64 % 64) / 16) (by omega)
        have hh4 := hexVal_hexDigitU ((128 + c.toNat / 64 % 64) % 16) (by omega)
        have hh5 := hexVal_hexDigitU ((128 + c.toNat % 64) / 16) (by omega)
        have hh6 := hexVal_hexDigitU ((128 + c.toNat % 64) % 16) (by omega)
        have hrec1 : (224 + c.toNat / 4096) / 16 * 16 + (224 + c.toNat / 4096) % 16
            = 224 + c.toNat / 4096 := by omega
        have hrec2 : (128 + c.toNat / 64 % 64) / 16 * 16 +
            (128 + c.toNat / 64 % 64) % 16 = 128 + c.toNat / 64 % 64 := by omega
        have hrec3 : (128 + c.toNat % 64) / 16 * 16 + (128 + c.toNat % 64) % 16
            = 128 + c.toNat % 64 := by omega
        have hc1 : ¬ 224 + c.toNat / 4096 < 128 := by omega
        have hc2 : ¬ 224 + c.toNat / 4096 < 192 := by omega
        have hc3 : ¬ 224 + c.toNat / 4096 < 224 := by omega
        have hc4 : 224 + c.toNat / 4096 < 240 := by omega
        have hd1 : 128 ≤ 128 + c.toNat / 64 % 64 := by omega
        have hd2 : 128 + c.toNat / 64 % 64 < 192 := by omega
        have hd3 : 128 ≤ 128 + c.toNat % 64 := by omega
        have hd4 : 128 + c.toNat % 64 < 192 := by omega
        have hrecn : (224 + c.toNat / 4096 - 224) * 4096 +
            (128 + c.toNat / 64 % 64 - 128) * 64 + (128 + c.toNat % 64 - 128)
            = c.toNat := by omega
        simp [pctStep, hh1, hh2, hh3, hh4, hh5, hh6, hrec1, hrec2, hrec3,
          hc1, hc2, hc3, hc4, hd1, hd2, hd3, hd4, hrecn,
          charToNat_valid c, Char.ofNat_toNat]
        have hfin : c.toNat / 4096 * 4096 + c.toNat / 64 % 64 * 64 + c.toNat % 64
            = c.toNat := by omega
        rw [hfin]
        exact ⟨charToNat_valid c, Char.ofNat_toNat c⟩
      · have e1 : utf8Bytes c.toNat =
            [240 + c.toNat / 262144, 128 + c.toNat / 4096 % 64,
              128 + c.toNat / 64 % 64, 128 + c.toNat % 64] := by
          rw [utf8Bytes, if_neg h1, if_neg h2, if_neg h3]
        rw [e1]
        simp only [List.map, pctByte, concatAll, List.append_nil,
          List.cons_append, List.nil_append]
        have hh1 := hexVal_hexDigitU ((240 + c.toNat / 262144) / 16) (by omega)
        have hh2 := hexVal_hexDigitU ((240 + c.toNat / 262144) % 16) (by omega)
        have hh3 := hexVal_hexDigitU ((128 + c.toNat / 4096 % 64) / 16) (by omega)
        have hh4 := hexVal_hexDigitU ((128 + c.toNat / 4096 % 64) % 16) (by omega)
        have hh5 := hexVal_hexDigitU ((128 + c.toNat / 64 % 64) / 16) (by omega)
        have hh6 := hexVal_hexDigitU ((128 + c.toNat / 64 % 64) % 16) (by omega)
        have hh7 := hexVal_hexDigitU ((128 + c.toNat % 64) / 16) (by omega)
        have hh8 := hexVal_hexDigitU ((128 + c.toNat % 64) % 16) (by omega)
        have hrec1 : (240 + c.toNat / 262144) / 16 * 16 +
            (240 + c.toNat / 262144) % 16 = 240 + c.toNat / 262144 := by omega
        have hrec2 : (128 + c.toNat / 4096 % 64) / 16 * 16 +
            (128 + c.toNat / 4096 % 64) % 16 = 128 + c.toNat / 4096 % 64 := by
          omega
        have hrec3 : (128 + c.toNat / 64 % 64) / 16 * 16 +
            (128 + c.toNat / 64 % 64) % 16 = 128 + c.toNat / 64 % 64 := by omega
        have hrec4 : (128 + c.toNat % 64) / 16 * 16 + (128 + c.toNat % 64) % 16
            = 128 + c.toNat % 64 := by omega
        have hc1 : ¬ 240 + c.toNat / 262144 < 128 := by omega
        have hc2 : ¬ 240 + c.toNat / 262144 < 192 := by omega
        have hc3 : ¬ 240 + c.toNat / 262144 < 224 := by omega
        have hc4 : ¬ 240 + c.toNat / 262144 < 240 := by omega
        have hc5 : 240 + c.toNat / 262144 < 248 := by omega
        have hd1 : 128 ≤ 128 + c.toNat / 4096 % 64 := by omega
        have hd2 : 128 + c.toNat / 4096 % 64 < 192 := by omega
        have hd3 : 128 ≤ 128 + c.toNat / 64 % 64 := by omega
        have hd4 : 128 + c.toNat / 64 % 64 < 192 := by omega
        have hd5 : 128 ≤ 128 + c.toNat % 64 := by omega
        have hd6 : 128 + c.toNat % 64 < 192 := by omega
        have hrecn : (240 + c.toNat / 262144 - 240) * 262144 +
            (128 + c.toNat / 4096 % 64 - 128) * 4096 +
            (128 + c.toNat / 64 % 64 - 128) * 64 + (128 + c.toNat % 64 - 128)
            = c.toNat := by omega
        simp [pctStep, hh1, hh2, hh3, hh4, hh5, hh6, hh7, hh8,
          hrec1, hrec2, hrec3, hrec4, hc1, hc2, hc3, hc4, hc5,
          hd1, hd2, hd3, hd4, hd5, hd6, hrecn,
          charToNat_valid c, Char.ofNat_toNat]
        have hfin : c.toNat / 262144 * 262144 + c.toNat / 4096 % 64 * 4096 +
            c.toNat / 64 % 64 * 64 + c.toNat % 64 = c.toNat := by omega
        rw [hfin]
        exact ⟨charToNat_valid c, Char.ofNat_toNat c⟩

theorem pctLoop_step (fuel : Nat) (x : List Char) (c : Char) (r : List Char)
    (hx : x ≠ []) (hstep : pctStep x = some (c, r)) :
    pctLoop (fuel + 1) x =
      match pctLoop fuel r with
      | some s => some (c :: s)
      | none => none := by
  cases x with
  | nil => exact absurd rfl hx
  | cons y ys => rw [pctLoop, hstep]

theorem encode_chunk_ne_nil (c : Char) :
    concatAll ((utf8Bytes c.toNat).map pctByte) ≠ [] := by
  rw [utf8Bytes]
  split_ifs <;> simp [pctByte, concatAll]

theorem pctLoop_encode (s : List Char) :
    ∀ fuel, s.length ≤ fuel → pctLoop fuel (encodeURIComponentM s) = some s := by
  induction s with
  | nil =>
    intro fuel _
    rw [show encodeURIComponentM [] = [] from rfl]
    cases fuel <;> rfl
  | cons c rest ih =>
    intro fuel hle
    cases fuel with
    | zero => simp at hle
    | succ f =>
      have hih := ih f (by simpa using Nat.le_of_succ_le_succ hle)
      rw [encodeURIComponentM]
      by_cases hu : isUriUnreserved c
      · rw [if_pos hu, List.singleton_append, pctLoop,
          pctStep_unreserved c _ hu]
        simp [hih]
      · rw [if_neg hu]
        have hne : concatAll ((utf8Bytes c.toNat).map pctByte) ++
            encodeURIComponentM rest ≠ [] := by
          intro hx
          exact encode_chunk_ne_nil c (List.append_eq_nil.mp hx).1
        rw [pctLoop_step f _ c (encodeURIComponentM rest) hne
          (pctStep_escape c (encodeURIComponentM rest))]
        simp [hih]

theorem le_length_encode (s : List Char) :
    s.length ≤ (encodeURIComponentM s).length := by
  induction s with
  | nil => simp [encodeURIComponentM]
  | cons c rest ih =>
    rw [encodeURIComponentM]
    have h : 1 ≤ (if isUriUnreserved c then [c]
        else concatAll ((utf8Bytes c.toNat).map pctByte)).length := by
      by_cases hu : isUriUnreserved c
      · simp [hu]
      · rw [if_neg hu, utf8Bytes]
        split_ifs <;> simp [pctByte, concatAll]
    simp only [List.length_append, List.length_cons]
    omega

theorem decodeURI_encodeURI (s : List Char) :
    decodeURIComponentM (encodeURIComponentM s) = some s := by
  rw [decodeURIComponentM]
  exact pctLoop_encode s _ (le_length_encode s)

/-- Claim C9: both historical fragment formats decode: a `#note=`
fragment carrying percent-encoded text is reconstructed by the plain
variant load path, and a `#data=` fragment carrying the compressed JSON
payload is reconstructed by the rich variant load path. -/
theorem c9_two_fragment_formats (text : List Char) (d : SyncData) :
    decodeNoteFragment (("#note=").data ++ encodeURIComponentM text) = some text ∧
    decodeDataFragment (("#data=").data ++
      compressToEncodedURIComponent (stringifySync d)) = some d := by
  constructor
  · have h6 : (("#note=").data).length = 6 := rfl
    have htake : (("#note=").data ++ encodeURIComponentM text).take 6 =
        ("#note=").data := by
      conv_lhs => rw [← h6]
      exact List.take_left _ _
    have hdrop : (("#note=").data ++ encodeURIComponentM text).drop 6 =
        encodeURIComponentM text := by
      conv_lhs => rw [← h6]
      exact List.drop_left _ _
    simp only [decodeNoteFragment, htake, hdrop, if_pos]
    simp [decodeURI_encodeURI]
  · exact decodeData_of_payload d

/-- Claim C10: the plain-variant BULLETS transform is idempotent: one
application leaves every kept line non-empty, trimmed and bullet-marked,
and such lines pass through a second application unchanged. -/
theorem c10_bullets_idempotent (content : List Char) :
    bullets (bullets content) = bullets content := by
  have hfacts := bullets_line_facts content
  set L := ((splitNl content).map bulletLine).filter (fun l => !l.isEmpty) with hL
  have hbc : bullets content = joinNl L := rfl
  cases hLe : L with
  | nil =>
    rw [hbc, hLe]
    rfl
  | cons x tl =>
    have hne : L ≠ [] := by rw [hLe]; exact List.cons_ne_nil x tl
    have hnl : ∀ l ∈ L, ('\n' : Char) ∉ l := fun l hl => (hfacts l hl).2.2
    have hsplit : splitNl (joinNl L) = L := splitNl_joinNl L hne hnl
    have hmap : L.map bulletLine = L := by
      calc L.map bulletLine = L.map id :=
            List.map_congr_left (fun a ha => (hfacts a ha).2.1)
        _ = L := List.map_id L
    have hfil : L.filter (fun l => !l.isEmpty) = L :=
      List.filter_eq_self.mpr (fun a ha => by simpa using (hfacts a ha).1)
    conv_lhs => rw [hbc]
    rw [show bullets (joinNl L) =
      joinNl (((splitNl (joinNl L)).map bulletLine).filter
        (fun l => !l.isEmpty)) from rfl]
    rw [hsplit, hmap, hfil, hbc]

end BridgeNote
